import Mathlib

/-!
Verification of the EquirusHomeSaver amortization calculator
(`src/src/App.jsx`, second revision: `safeNper` at lines 283-288 and
`calculateNow` at lines 319-367, with `SAVINGS_ROI = 5.1` at line 310).

The JavaScript code computes with IEEE doubles.  We embed its values as
`JsNum`: a finite real number, `+Infinity`, `-Infinity`, or `NaN` (the
"undefined" sentinel).  Signed zero is identified with zero; floating-point
rounding of finite arithmetic is idealized to exact real arithmetic, which is
the level at which the specification speaks.  The arithmetic operations used
by the calculator (`-`, `*`, `/`, `Math.log`, `Math.trunc`) are given their
JavaScript semantics on this value space.
-/

namespace EquirusHomeSaver

noncomputable section

/-- A JavaScript number as used by the calculator: a finite real, `+Infinity`,
`-Infinity`, or `NaN`.  Signed zero is identified with `0`. -/
inductive JsNum where
  | num (x : ℝ)
  | pinf
  | ninf
  | nan

namespace JsNum

/-- JavaScript `isFinite`. -/
def isFinite : JsNum → Bool
  | num _ => true
  | _ => false

/-- The value of `isFinite(offset) ? offset : 0` (App.jsx line 337). -/
def finiteOr0 : JsNum → ℝ
  | num x => x
  | _ => 0

/-- The condition `isFinite(v) && v > 0` used by the validation gate and the
opportunity-cost / effective-rate guards. -/
def finPos (v : JsNum) : Prop := ∃ x, v = num x ∧ 0 < x

/-- `a` is at most `b` whenever both are defined (finite) values.  Comparisons
involving the `NaN` sentinel or infinities are vacuous, as in JavaScript. -/
def defLe (a b : JsNum) : Prop := ∀ x y, a = num x → b = num y → x ≤ y

/-- `a` is nonnegative whenever it is a defined (finite) value. -/
def defNonneg (a : JsNum) : Prop := ∀ x, a = num x → 0 ≤ x

end JsNum

open JsNum

/-- JavaScript subtraction on `JsNum`. -/
def jsSub : JsNum → JsNum → JsNum
  | num a, num b => num (a - b)
  | num _, pinf => ninf
  | num _, ninf => pinf
  | pinf, num _ => pinf
  | pinf, ninf => pinf
  | ninf, num _ => ninf
  | ninf, pinf => ninf
  | _, _ => nan

/-- JavaScript multiplication on `JsNum` (`0 * Infinity = NaN`). -/
def jsMul : JsNum → JsNum → JsNum
  | num a, num b => num (a * b)
  | num a, pinf => if 0 < a then pinf else if a < 0 then ninf else nan
  | pinf, num a => if 0 < a then pinf else if a < 0 then ninf else nan
  | num a, ninf => if 0 < a then ninf else if a < 0 then pinf else nan
  | ninf, num a => if 0 < a then ninf else if a < 0 then pinf else nan
  | pinf, pinf => pinf
  | pinf, ninf => ninf
  | ninf, pinf => ninf
  | ninf, ninf => pinf
  | _, _ => nan

/-- JavaScript division on `JsNum` (`x / 0 = ±Infinity` for `x ≠ 0`,
`0 / 0 = NaN`, `finite / ±Infinity = 0`, `±Infinity / ±Infinity = NaN`). -/
def jsDiv : JsNum → JsNum → JsNum
  | num a, num b =>
      if b = 0 then (if 0 < a then pinf else if a < 0 then ninf else nan)
      else num (a / b)
  | num _, pinf => num 0
  | num _, ninf => num 0
  | pinf, num b => if 0 ≤ b then pinf else ninf
  | ninf, num b => if 0 ≤ b then ninf else pinf
  | _, _ => nan

/-- JavaScript `Math.log` on a finite argument: `NaN` for negative input,
`-Infinity` at `0`, the real logarithm otherwise. -/
def jsLog (x : ℝ) : JsNum :=
  if x < 0 then nan else if x = 0 then ninf else num (Real.log x)

/-- JavaScript `Math.trunc` (truncation toward zero). -/
def jsTrunc : JsNum → JsNum
  | num a => num (if 0 ≤ a then ((⌊a⌋ : ℤ) : ℝ) else ((⌈a⌉ : ℤ) : ℝ))
  | pinf => pinf
  | ninf => ninf
  | nan => nan

/-- `safeNper` (App.jsx lines 283-288):
```
function safeNper(pv, emi, r) {
  if (!isFinite(pv) || !isFinite(emi) || !isFinite(r) || emi <= 0) return NaN;
  const denom = 1 - r * pv / emi;
  if (denom <= 0) return NaN;
  return -Math.log(denom) / Math.log(1 + r);
}
``` -/
def safeNper : JsNum → JsNum → JsNum → JsNum
  | num pv, num emi, num r =>
      if emi ≤ 0 then nan
      else if 1 - r * pv / emi ≤ 0 then nan
      else jsDiv (num (-Real.log (1 - r * pv / emi))) (jsLog (1 + r))
  | _, _, _ => nan

/-- `monthlyRate = rate / 100 / 12` (App.jsx line 317), on a finite rate. -/
def monthlyRateOf (R : ℝ) : ℝ := R / 100 / 12

/-- `nOrig = Math.round(tenureYears * 12)` (App.jsx line 332).  JavaScript
`Math.round` rounds half toward `+Infinity`, which is Mathlib's `round`. -/
def nOrigOf (T : ℝ) : ℤ := round (T * 12)

/-- The EMI computation (App.jsx lines 333-335):
`monthlyRate === 0 ? loan / nOrig : monthlyRate*loan / (1 - (1+monthlyRate)^(-nOrig))`. -/
def emiOf (L R T : ℝ) : JsNum :=
  if monthlyRateOf R = 0 then jsDiv (num L) (num ((nOrigOf T : ℤ) : ℝ))
  else
    jsDiv (num (monthlyRateOf R * L))
      (num (1 - (1 + monthlyRateOf R) ^ (-(nOrigOf T))))

/-- The real value of the EMI in the compound branch,
`monthlyRate * loan / (1 - (1 + monthlyRate)^(-nOrig))`; equals `emiOf L R T`
whenever the denominator is nonzero (see `emiOf_eq`). -/
def emiVal (L R T : ℝ) : ℝ :=
  monthlyRateOf R * L / (1 - (1 + monthlyRateOf R) ^ (-(nOrigOf T)))

/-- The `denom` computed inside `safeNper` when called on principal `pa`, the
computed EMI and the monthly rate: `1 - r * pv / emi`. -/
def nperDenom (L R T pa : ℝ) : ℝ := 1 - monthlyRateOf R * pa / emiVal L R T

/-- The value `-Math.log(denom) / Math.log(1 + r)` returned by `safeNper` in
its defined case. -/
def nperVal (L R T pa : ℝ) : ℝ :=
  -Real.log (nperDenom L R T pa) / Real.log (1 + monthlyRateOf R)

/-- `principalAfter = Math.max(0, loan - (isFinite(offset) ? offset : 0))`
(App.jsx line 337). -/
def principalAfterOf (L : ℝ) (offs : JsNum) : ℝ := max 0 (L - offs.finiteOr0)

/-- `nOrigReal = safeNper(loan, emi, monthlyRate)` (App.jsx line 338). -/
def nOrigRealOf (L R T : ℝ) : JsNum :=
  safeNper (num L) (emiOf L R T) (num (monthlyRateOf R))

/-- `nNew = safeNper(principalAfter, emi, monthlyRate)` (App.jsx line 339). -/
def nNewOf (L R T : ℝ) (offs : JsNum) : JsNum :=
  safeNper (num (principalAfterOf L offs)) (emiOf L R T) (num (monthlyRateOf R))

/-- `origInterest = emi * nOrigReal - loan` (App.jsx line 341). -/
def origInterestOf (L R T : ℝ) : JsNum :=
  jsSub (jsMul (emiOf L R T) (nOrigRealOf L R T)) (num L)

/-- `newInterest = emi * nNew - principalAfter` (App.jsx line 342). -/
def newInterestOf (L R T : ℝ) (offs : JsNum) : JsNum :=
  jsSub (jsMul (emiOf L R T) (nNewOf L R T offs)) (num (principalAfterOf L offs))

/-- `interestSaved = origInterest - newInterest` (App.jsx line 343). -/
def interestSavedOf (L R T : ℝ) (offs : JsNum) : JsNum :=
  jsSub (origInterestOf L R T) (newInterestOf L R T offs)

/-- `yearsNew = nNew / 12` (App.jsx line 346). -/
def yearsNewOf (L R T : ℝ) (offs : JsNum) : JsNum :=
  jsDiv (nNewOf L R T offs) (num 12)

/-- The fixed opportunity-cost annual rate, `SAVINGS_ROI = 5.1` (App.jsx
line 310). -/
def SAVINGS_ROI : ℝ := 5.1

/-- The opportunity-cost block (App.jsx lines 347-351): nonzero only when
`yearsNew` and `offset` are both finite and strictly positive, in which case
`oppCost = offset * ((1 + SAVINGS_ROI/100)^yearsNew - 1)`. -/
def oppCostOf (offs yn : JsNum) : ℝ :=
  match yn, offs with
  | num y, num c =>
      if 0 < y ∧ 0 < c then c * ((1 + SAVINGS_ROI / 100) ^ y - 1) else 0
  | _, _ => 0

/-- `netSavings = interestSaved - oppCost` (App.jsx line 353). -/
def netSavingsOf (L R T : ℝ) (offs : JsNum) : JsNum :=
  jsSub (interestSavedOf L R T offs)
    (num (oppCostOf offs (yearsNewOf L R T offs)))

/-- `emisSaved = Math.trunc(nOrigReal - nNew)` (App.jsx line 354). -/
def emisSavedOf (L R T : ℝ) (offs : JsNum) : JsNum :=
  jsTrunc (jsSub (nOrigRealOf L R T) (nNewOf L R T offs))

/-- `effectiveRate` (App.jsx lines 355-357): defined only when `yearsNew` is
finite and strictly positive, as `rate - (netSavings / (loan * yearsNew)) * 100`. -/
def effectiveRateOf (L R T : ℝ) (offs : JsNum) : JsNum :=
  match yearsNewOf L R T offs with
  | num y =>
      if 0 < y then
        jsSub (num R)
          (jsMul (jsDiv (netSavingsOf L R T offs) (jsMul (num L) (num y)))
            (num 100))
      else nan
  | _ => nan

/-- The result record set by `setResults` (App.jsx lines 359-366). -/
structure CalcResult where
  emi : JsNum
  yearsNew : JsNum
  interestSaved : JsNum
  netSavings : JsNum
  emisSaved : JsNum
  effectiveRate : JsNum

/-- The all-`NaN` record written when validation fails (App.jsx lines 321-328). -/
def emptyResult : CalcResult := ⟨nan, nan, nan, nan, nan, nan⟩

/-- The body of `calculateNow` after the validation gate has passed, for the
(necessarily finite) loan `L`, annual rate `R` and tenure `T`, and the raw
offset value `offs`. -/
def calcCore (L R T : ℝ) (offs : JsNum) : CalcResult :=
  { emi := emiOf L R T
    yearsNew := yearsNewOf L R T offs
    interestSaved := interestSavedOf L R T offs
    netSavings := netSavingsOf L R T offs
    emisSaved := emisSavedOf L R T offs
    effectiveRate := effectiveRateOf L R T offs }

/-- The validation gate `[loan, rate, tenureYears].every(v => isFinite(v) && v > 0)`
(App.jsx line 320). -/
def validGate (loan rate tenure : JsNum) : Prop :=
  loan.finPos ∧ rate.finPos ∧ tenure.finPos

/-- `calculateNow` (App.jsx lines 319-367): validate, then compute the whole
result record. -/
def calculateNow (loan rate tenure offs : JsNum) : CalcResult :=
  match loan, rate, tenure with
  | num L, num R, num T =>
      if 0 < L ∧ 0 < R ∧ 0 < T then calcCore L R T offs else emptyResult
  | _, _, _ => emptyResult

end

open JsNum

/-! ### Basic evaluation lemmas -/

lemma jsDiv_num_of_ne (a b : ℝ) (hb : b ≠ 0) : jsDiv (num a) (num b) = num (a / b) := by
  simp [jsDiv, hb]

lemma monthlyRateOf_pos {R : ℝ} (hR : 0 < R) : 0 < monthlyRateOf R := by
  unfold monthlyRateOf; positivity

lemma nOrigOf_nonneg {T : ℝ} (hT : 0 < T) : 0 ≤ nOrigOf T := by
  unfold nOrigOf
  rw [round_eq]
  refine Int.le_floor.mpr ?_
  push_cast
  nlinarith

lemma zpow_neg_n_pos {m : ℝ} (hm : 0 < m) (n : ℤ) : 0 < (1 + m) ^ (-n) :=
  zpow_pos (by linarith) _

lemma zpow_neg_n_lt_one {m : ℝ} (hm : 0 < m) {n : ℤ} (hn : 1 ≤ n) :
    (1 + m) ^ (-n) < 1 := by
  have h1 : (1:ℝ) < 1 + m := by linarith
  have h2 : (1:ℝ) + m ≤ (1 + m) ^ n := by
    calc (1:ℝ) + m = (1 + m) ^ (1 : ℤ) := (zpow_one _).symm
    _ ≤ (1 + m) ^ n := zpow_le_zpow_right₀ h1.le hn
  rw [zpow_neg]
  exact inv_lt_one (lt_of_lt_of_le h1 h2)

lemma denomE_pos {R T : ℝ} (hR : 0 < R) (hn : 1 ≤ nOrigOf T) :
    0 < 1 - (1 + monthlyRateOf R) ^ (-(nOrigOf T)) := by
  have := zpow_neg_n_lt_one (monthlyRateOf_pos hR) hn
  linarith

lemma emiOf_eq {L R T : ℝ} (hR : 0 < R) (hn : 1 ≤ nOrigOf T) :
    emiOf L R T = num (emiVal L R T) := by
  have hm := monthlyRateOf_pos hR
  have hd := denomE_pos hR hn
  unfold emiOf emiVal
  rw [if_neg (ne_of_gt hm), jsDiv_num_of_ne _ _ (ne_of_gt hd)]

lemma emiVal_pos {L R T : ℝ} (hL : 0 < L) (hR : 0 < R) (hn : 1 ≤ nOrigOf T) :
    0 < emiVal L R T := by
  have hm := monthlyRateOf_pos hR
  have hd := denomE_pos hR hn
  unfold emiVal
  positivity

lemma nperDenom_at_L {L R T : ℝ} (hL : 0 < L) (hR : 0 < R) (hn : 1 ≤ nOrigOf T) :
    nperDenom L R T L = (1 + monthlyRateOf R) ^ (-(nOrigOf T)) := by
  have hm := monthlyRateOf_pos hR
  have hd := denomE_pos hR hn
  have hml : monthlyRateOf R * L ≠ 0 := ne_of_gt (mul_pos hm hL)
  unfold nperDenom emiVal
  rw [div_div_eq_mul_div, mul_comm (monthlyRateOf R * L)
      (1 - (1 + monthlyRateOf R) ^ (-(nOrigOf T))), mul_div_assoc,
    div_self hml, mul_one]
  ring

lemma nperDenom_ge {L R T pa : ℝ} (hL : 0 < L) (hR : 0 < R) (hn : 1 ≤ nOrigOf T)
    (hpaL : pa ≤ L) :
    (1 + monthlyRateOf R) ^ (-(nOrigOf T)) ≤ nperDenom L R T pa := by
  rw [← nperDenom_at_L hL hR hn]
  unfold nperDenom
  have hm := monthlyRateOf_pos hR
  have hE := emiVal_pos hL hR hn
  have h1 : monthlyRateOf R * pa / emiVal L R T ≤ monthlyRateOf R * L / emiVal L R T :=
    (div_le_div_right hE).mpr (mul_le_mul_of_nonneg_left hpaL hm.le)
  linarith

lemma nperDenom_pos {L R T pa : ℝ} (hL : 0 < L) (hR : 0 < R) (hn : 1 ≤ nOrigOf T)
    (hpaL : pa ≤ L) : 0 < nperDenom L R T pa :=
  lt_of_lt_of_le (zpow_neg_n_pos (monthlyRateOf_pos hR) _) (nperDenom_ge hL hR hn hpaL)

lemma nperDenom_le_one {L R T pa : ℝ} (hL : 0 < L) (hR : 0 < R) (hn : 1 ≤ nOrigOf T)
    (hpa : 0 ≤ pa) : nperDenom L R T pa ≤ 1 := by
  have hm := monthlyRateOf_pos hR
  have hE := emiVal_pos hL hR hn
  have h1 : 0 ≤ monthlyRateOf R * pa / emiVal L R T :=
    div_nonneg (mul_nonneg hm.le hpa) hE.le
  unfold nperDenom
  linarith

lemma nperDenom_anti {L R T pa qa : ℝ} (hL : 0 < L) (hR : 0 < R) (hn : 1 ≤ nOrigOf T)
    (hpq : pa ≤ qa) : nperDenom L R T qa ≤ nperDenom L R T pa := by
  have hm := monthlyRateOf_pos hR
  have hE := emiVal_pos hL hR hn
  have h1 : monthlyRateOf R * pa / emiVal L R T ≤ monthlyRateOf R * qa / emiVal L R T :=
    (div_le_div_right hE).mpr (mul_le_mul_of_nonneg_left hpq hm.le)
  unfold nperDenom
  linarith

lemma safeNper_eval {pa E m : ℝ} (hE : 0 < E) (hm : 0 < m)
    (hd : 0 < 1 - m * pa / E) :
    safeNper (num pa) (num E) (num m) =
      num (-Real.log (1 - m * pa / E) / Real.log (1 + m)) := by
  have h1m : (1:ℝ) < 1 + m := by linarith
  have hlog : 0 < Real.log (1 + m) := Real.log_pos h1m
  show (if E ≤ 0 then nan
      else if 1 - m * pa / E ≤ 0 then nan
      else jsDiv (num (-Real.log (1 - m * pa / E))) (jsLog (1 + m))) = _
  rw [if_neg (not_le.mpr hE), if_neg (not_le.mpr hd)]
  unfold jsLog
  rw [if_neg (by linarith), if_neg (by linarith),
    jsDiv_num_of_ne _ _ (ne_of_gt hlog)]

lemma nNew_eval_pa {L R T pa : ℝ} (hL : 0 < L) (hR : 0 < R) (hn : 1 ≤ nOrigOf T)
    (hpaL : pa ≤ L) :
    safeNper (num pa) (emiOf L R T) (num (monthlyRateOf R)) =
      num (nperVal L R T pa) := by
  rw [emiOf_eq hR hn]
  have h := safeNper_eval (emiVal_pos hL hR hn) (monthlyRateOf_pos hR)
    (show 0 < 1 - monthlyRateOf R * pa / emiVal L R T from
      nperDenom_pos hL hR hn hpaL)
  rw [h]
  rfl

lemma nperVal_at_L {L R T : ℝ} (hL : 0 < L) (hR : 0 < R) (hn : 1 ≤ nOrigOf T) :
    nperVal L R T L = ((nOrigOf T : ℤ) : ℝ) := by
  have hm := monthlyRateOf_pos hR
  have hlog : Real.log (1 + monthlyRateOf R) ≠ 0 :=
    ne_of_gt (Real.log_pos (by linarith))
  unfold nperVal
  rw [nperDenom_at_L hL hR hn, Real.log_zpow]
  push_cast
  field_simp

lemma nOrigRealOf_eq {L R T : ℝ} (hL : 0 < L) (hR : 0 < R) (hn : 1 ≤ nOrigOf T) :
    nOrigRealOf L R T = num ((nOrigOf T : ℤ) : ℝ) := by
  unfold nOrigRealOf
  rw [nNew_eval_pa hL hR hn (le_refl L), nperVal_at_L hL hR hn]

lemma nNewOf_eq {L R T c : ℝ} (hL : 0 < L) (hR : 0 < R) (hn : 1 ≤ nOrigOf T)
    (hc : 0 ≤ c) :
    nNewOf L R T (num c) = num (nperVal L R T (principalAfterOf L (num c))) := by
  unfold nNewOf
  refine nNew_eval_pa hL hR hn ?_
  unfold principalAfterOf JsNum.finiteOr0
  exact max_le hL.le (by linarith)

lemma principalAfter_nonneg (L : ℝ) (offs : JsNum) : 0 ≤ principalAfterOf L offs :=
  le_max_left _ _

/-! ### Degenerate month count: `round(tenure * 12) = 0` makes the EMI infinite
and every downstream field `NaN`. -/

lemma emiOf_pinf {L R T : ℝ} (hL : 0 < L) (hR : 0 < R) (hn : nOrigOf T = 0) :
    emiOf L R T = pinf := by
  have hm := monthlyRateOf_pos hR
  unfold emiOf
  rw [if_neg (ne_of_gt hm), hn, neg_zero, zpow_zero, sub_self]
  show (if (0:ℝ) = 0 then
      (if 0 < monthlyRateOf R * L then pinf
        else if monthlyRateOf R * L < 0 then ninf else nan)
      else num (monthlyRateOf R * L / 0)) = pinf
  rw [if_pos rfl, if_pos (mul_pos hm hL)]

lemma degenerate_nan {L R T : ℝ} (hL : 0 < L) (hR : 0 < R) (hn : nOrigOf T = 0)
    (offs : JsNum) :
    nOrigRealOf L R T = nan ∧ nNewOf L R T offs = nan ∧
      interestSavedOf L R T offs = nan ∧ yearsNewOf L R T offs = nan ∧
      emisSavedOf L R T offs = nan := by
  have he := emiOf_pinf hL hR hn
  have h1 : nOrigRealOf L R T = nan := by unfold nOrigRealOf; rw [he]; rfl
  have h2 : nNewOf L R T offs = nan := by unfold nNewOf; rw [he]; rfl
  have h3 : interestSavedOf L R T offs = nan := by
    unfold interestSavedOf origInterestOf newInterestOf
    rw [he, h1, h2]
    rfl
  have h4 : yearsNewOf L R T offs = nan := by unfold yearsNewOf; rw [h2]; rfl
  have h5 : emisSavedOf L R T offs = nan := by
    unfold emisSavedOf; rw [h1, h2]; rfl
  exact ⟨h1, h2, h3, h4, h5⟩

/-! ### Further evaluation lemmas for defined results -/

lemma principalAfterOf_num (L c : ℝ) : principalAfterOf L (num c) = max 0 (L - c) := rfl

lemma interestSavedOf_eval {L R T c : ℝ} (hL : 0 < L) (hR : 0 < R)
    (hn : 1 ≤ nOrigOf T) (hc : 0 ≤ c) :
    interestSavedOf L R T (num c) =
      num (emiVal L R T * ((nOrigOf T : ℤ) : ℝ) - L -
        (emiVal L R T * nperVal L R T (principalAfterOf L (num c)) -
          principalAfterOf L (num c))) := by
  unfold interestSavedOf origInterestOf newInterestOf
  rw [emiOf_eq hR hn, nOrigRealOf_eq hL hR hn, nNewOf_eq hL hR hn hc]
  rfl

lemma yearsNewOf_eval {L R T c : ℝ} (hL : 0 < L) (hR : 0 < R)
    (hn : 1 ≤ nOrigOf T) (hc : 0 ≤ c) :
    yearsNewOf L R T (num c) =
      num (nperVal L R T (principalAfterOf L (num c)) / 12) := by
  unfold yearsNewOf
  rw [nNewOf_eq hL hR hn hc, jsDiv_num_of_ne _ _ (by norm_num)]

/-! ### Analytic facts behind the offset-monotonicity of the calculator -/

lemma log_diff_ge {d1 d2 : ℝ} (hd1 : 0 < d1) (h12 : d1 ≤ d2) (h21 : d2 ≤ 1) :
    d2 - d1 ≤ Real.log d2 - Real.log d1 := by
  have hd2 : 0 < d2 := lt_of_lt_of_le hd1 h12
  have h1 : Real.log (d1 / d2) ≤ d1 / d2 - 1 :=
    Real.log_le_sub_one_of_pos (div_pos hd1 hd2)
  rw [Real.log_div (ne_of_gt hd1) (ne_of_gt hd2)] at h1
  have e1 : (1:ℝ) - d1 / d2 = (d2 - d1) / d2 := by field_simp
  have h2 : (d2 - d1) * d2 ≤ d2 - d1 := by nlinarith
  have h3 : d2 - d1 ≤ (d2 - d1) / d2 := by
    rw [le_div_iff hd2]; exact h2
  linarith

lemma interest_mono_key {m d1 d2 : ℝ} (hm : 0 < m) (hd1 : 0 < d1)
    (h12 : d1 ≤ d2) (h21 : d2 ≤ 1) :
    Real.log (1 + m) * (d2 - d1) ≤ m * (Real.log d2 - Real.log d1) := by
  have hlogm_pos : 0 < Real.log (1 + m) := Real.log_pos (by linarith)
  have hlogm_le : Real.log (1 + m) ≤ m := by
    have := Real.log_le_sub_one_of_pos (show (0:ℝ) < 1 + m by linarith)
    linarith
  have hld := log_diff_ge hd1 h12 h21
  have h1 : Real.log (1 + m) * (d2 - d1) ≤
      Real.log (1 + m) * (Real.log d2 - Real.log d1) :=
    mul_le_mul_of_nonneg_left hld hlogm_pos.le
  have h2 : Real.log (1 + m) * (Real.log d2 - Real.log d1) ≤
      m * (Real.log d2 - Real.log d1) := by
    apply mul_le_mul_of_nonneg_right hlogm_le
    have : 0 ≤ d2 - d1 := by linarith
    linarith
  linarith

lemma nperVal_mono {L R T pa qa : ℝ} (hL : 0 < L) (hR : 0 < R)
    (hn : 1 ≤ nOrigOf T) (hpq : pa ≤ qa) (hqaL : qa ≤ L) :
    nperVal L R T pa ≤ nperVal L R T qa := by
  have hm := monthlyRateOf_pos hR
  have hlog : 0 < Real.log (1 + monthlyRateOf R) := Real.log_pos (by linarith)
  have hdq : 0 < nperDenom L R T qa := nperDenom_pos hL hR hn hqaL
  have hdp : 0 < nperDenom L R T pa :=
    lt_of_lt_of_le hdq (nperDenom_anti hL hR hn hpq)
  have hanti : nperDenom L R T qa ≤ nperDenom L R T pa :=
    nperDenom_anti hL hR hn hpq
  have hlogle : Real.log (nperDenom L R T qa) ≤ Real.log (nperDenom L R T pa) :=
    (Real.log_le_log_iff hdq hdp).mpr hanti
  unfold nperVal
  exact (div_le_div_iff_of_pos_right hlog).mpr (by linarith)

lemma emi_nper_lower {L R T pa qa : ℝ} (hL : 0 < L) (hR : 0 < R)
    (hn : 1 ≤ nOrigOf T) (hpa0 : 0 ≤ pa) (hpq : pa ≤ qa) (hqaL : qa ≤ L) :
    qa - pa ≤ emiVal L R T * (nperVal L R T qa - nperVal L R T pa) := by
  have hm := monthlyRateOf_pos hR
  have hE := emiVal_pos hL hR hn
  have hlog : 0 < Real.log (1 + monthlyRateOf R) := Real.log_pos (by linarith)
  have hdq : 0 < nperDenom L R T qa := nperDenom_pos hL hR hn hqaL
  have hdp1 : nperDenom L R T pa ≤ 1 := nperDenom_le_one hL hR hn hpa0
  have hle : nperDenom L R T qa ≤ nperDenom L R T pa := nperDenom_anti hL hR hn hpq
  have hkey := interest_mono_key hm hdq hle hdp1
  have h2 : (nperDenom L R T pa - nperDenom L R T qa) / monthlyRateOf R ≤
      (Real.log (nperDenom L R T pa) - Real.log (nperDenom L R T qa)) /
        Real.log (1 + monthlyRateOf R) := by
    rw [div_le_div_iff hm hlog]
    nlinarith [hkey]
  have h3 : emiVal L R T *
      ((nperDenom L R T pa - nperDenom L R T qa) / monthlyRateOf R) = qa - pa := by
    unfold nperDenom
    field_simp
    ring
  have h4 : emiVal L R T *
      ((Real.log (nperDenom L R T pa) - Real.log (nperDenom L R T qa)) /
        Real.log (1 + monthlyRateOf R)) =
      emiVal L R T * (nperVal L R T qa - nperVal L R T pa) := by
    unfold nperVal
    ring
  calc qa - pa
      = emiVal L R T *
          ((nperDenom L R T pa - nperDenom L R T qa) / monthlyRateOf R) := h3.symm
    _ ≤ emiVal L R T *
          ((Real.log (nperDenom L R T pa) - Real.log (nperDenom L R T qa)) /
            Real.log (1 + monthlyRateOf R)) :=
        mul_le_mul_of_nonneg_left h2 hE.le
    _ = emiVal L R T * (nperVal L R T qa - nperVal L R T pa) := h4

/-! ### The gate, and round evaluation -/

lemma calculateNow_not_gate (loan rate tenure offs : JsNum)
    (h : ¬ validGate loan rate tenure) :
    calculateNow loan rate tenure offs = emptyResult := by
  cases loan <;> cases rate <;> cases tenure
  case num.num.num L R T =>
    show (if 0 < L ∧ 0 < R ∧ 0 < T then calcCore L R T offs else emptyResult) = _
    exact if_neg fun hc =>
      h ⟨⟨L, rfl, hc.1⟩, ⟨R, rfl, hc.2.1⟩, ⟨T, rfl, hc.2.2⟩⟩
  all_goals rfl

lemma calculateNow_gate (L R T : ℝ) (offs : JsNum) (hL : 0 < L) (hR : 0 < R)
    (hT : 0 < T) : calculateNow (num L) (num R) (num T) offs = calcCore L R T offs := by
  show (if 0 < L ∧ 0 < R ∧ 0 < T then calcCore L R T offs else emptyResult) = _
  exact if_pos ⟨hL, hR, hT⟩

lemma nOrigOf_eval (T : ℝ) (k : ℤ) (h1 : (k : ℝ) ≤ T * 12 + 1/2)
    (h2 : T * 12 + 1/2 < k + 1) : nOrigOf T = k := by
  unfold nOrigOf
  rw [round_eq]
  exact Int.floor_eq_iff.mpr ⟨h1, h2⟩

/-! ### Claim theorems -/

/-- C1: whenever any of `principal`, `annualRatePercent`, `tenureYears` is
non-finite or not strictly positive (the validation gate fails),
`calculateNow` returns a result record with every field set to the `NaN`
sentinel, surfacing no partially computed field. -/
theorem C1_invalid_input_all_undefined (loan rate tenure offs : JsNum)
    (h : ¬ validGate loan rate tenure) :
    calculateNow loan rate tenure offs = ⟨nan, nan, nan, nan, nan, nan⟩ :=
  calculateNow_not_gate loan rate tenure offs h

/-- C1 witness: a `NaN` loan input yields the all-sentinel record. -/
theorem C1_witness :
    calculateNow nan (num 1) (num 1) (num 0) = ⟨nan, nan, nan, nan, nan, nan⟩ :=
  C1_invalid_input_all_undefined nan (num 1) (num 1) (num 0) (by
    rintro ⟨⟨x, hx, -⟩, -, -⟩
    exact JsNum.noConfusion hx)

/-- C2 counterexample: at `pv = 1`, `emi = 1`, `r = 0` none of the claim's
sentinel conditions hold (`emi > 0`, all inputs finite,
`denom = 1 - 0*1/1 = 1 > 0`), yet `safeNper` returns the `NaN` sentinel,
because `-Math.log(1) / Math.log(1) = -0/0 = NaN`.  So the claimed
"if and only if" fails. -/
theorem C2_counterexample :
    safeNper (num 1) (num 1) (num 0) = nan ∧
      ¬ ((1:ℝ) ≤ 0) ∧ ¬ ((1:ℝ) - 0 * 1 / 1 ≤ 0) := by
  refine ⟨?_, by norm_num, by norm_num⟩
  show (if (1:ℝ) ≤ 0 then nan
      else if (1:ℝ) - 0 * 1 / 1 ≤ 0 then nan
      else jsDiv (num (-Real.log ((1:ℝ) - 0 * 1 / 1))) (jsLog (1 + 0))) = nan
  rw [if_neg (by norm_num), if_neg (by norm_num)]
  have h1 : ((1:ℝ) - 0 * 1 / 1) = 1 := by norm_num
  have h2 : ((1:ℝ) + 0) = 1 := by norm_num
  rw [h1, h2]
  unfold jsLog
  rw [if_neg (by norm_num), if_neg (by norm_num), Real.log_one, neg_zero]
  show (if (0:ℝ) = 0 then
      (if (0:ℝ) < 0 then pinf else if (0:ℝ) < 0 then ninf else nan)
      else num (0 / 0)) = nan
  rw [if_pos rfl, if_neg (lt_irrefl 0), if_neg (lt_irrefl 0)]

/-- C2 (amended): `safeNper` is a total function (it never raises), and it
returns the `NaN` sentinel exactly when an input is non-finite, `emi ≤ 0`,
`denom = 1 - r*pv/emi ≤ 0`, or `Math.log(1+r)` is zero or undefined (`r = 0`
or `r < -1`); in the remaining cases with `-1 < r`, `r ≠ 0` it returns
`-ln(denom)/ln(1+r)`. -/
theorem C2_safeNper_characterization :
    (∀ pv emi r : JsNum,
        ¬(pv.isFinite = true ∧ emi.isFinite = true ∧ r.isFinite = true) →
          safeNper pv emi r = nan) ∧
    (∀ pv0 emi0 r0 : ℝ,
        safeNper (num pv0) (num emi0) (num r0) = nan ↔
          emi0 ≤ 0 ∨ 1 - r0 * pv0 / emi0 ≤ 0 ∨ r0 = 0 ∨ r0 < -1) ∧
    (∀ pv0 emi0 r0 : ℝ, 0 < emi0 → 0 < 1 - r0 * pv0 / emi0 → r0 ≠ 0 →
        -1 < r0 →
        safeNper (num pv0) (num emi0) (num r0) =
          num (-Real.log (1 - r0 * pv0 / emi0) / Real.log (1 + r0))) := by
  have main : ∀ pv0 emi0 r0 : ℝ,
      safeNper (num pv0) (num emi0) (num r0) = nan ↔
        emi0 ≤ 0 ∨ 1 - r0 * pv0 / emi0 ≤ 0 ∨ r0 = 0 ∨ r0 < -1 := by
    intro pv0 emi0 r0
    show (if emi0 ≤ 0 then nan
        else if 1 - r0 * pv0 / emi0 ≤ 0 then nan
        else jsDiv (num (-Real.log (1 - r0 * pv0 / emi0))) (jsLog (1 + r0))) =
          nan ↔ _
    by_cases he : emi0 ≤ 0
    · simp [he]
    rw [if_neg he]
    by_cases hd : 1 - r0 * pv0 / emi0 ≤ 0
    · simp [hd]
    rw [if_neg hd]
    rcases lt_trichotomy r0 (-1) with hr | hr | hr
    · -- r0 < -1 : log of a negative number, NaN
      unfold jsLog
      rw [if_pos (by linarith)]
      exact iff_of_true rfl (Or.inr (Or.inr (Or.inr hr)))
    · -- r0 = -1 : log 0 = -Infinity, finite / -Infinity = 0, defined
      subst hr
      unfold jsLog
      rw [if_neg (by norm_num), if_pos (by norm_num)]
      show num 0 = nan ↔ _
      simp only [he, hd, false_or]
      constructor
      · intro h0; exact JsNum.noConfusion h0
      · rintro (h | h) <;> norm_num at h
    · -- -1 < r0 : log (1+r0) is a real number
      unfold jsLog
      rw [if_neg (by linarith), if_neg (by linarith)]
      by_cases hz : r0 = 0
      · -- denominator log 1 = 0, numerator -log 1 = 0, 0/0 = NaN
        subst hz
        have hd1 : (1:ℝ) - 0 * pv0 / emi0 = 1 := by norm_num
        rw [hd1, add_zero, Real.log_one, neg_zero]
        show (if (0:ℝ) = 0 then
            (if (0:ℝ) < 0 then pinf else if (0:ℝ) < 0 then ninf else nan)
            else num (0 / 0)) = nan ↔ _
        rw [if_pos rfl, if_neg (lt_irrefl 0), if_neg (lt_irrefl 0)]
        simp
      · -- r0 ≠ 0, -1 < r0 : log(1+r0) ≠ 0, quotient is a real number
        have hne : Real.log (1 + r0) ≠ 0 :=
          Real.log_ne_zero_of_pos_of_ne_one (by linarith)
            (by intro h; exact hz (by linarith [h]))
        rw [jsDiv_num_of_ne _ _ hne]
        simp only [he, hd, hz, false_or]
        constructor
        · intro h0; exact JsNum.noConfusion h0
        · intro h0; linarith
  refine ⟨?_, main, ?_⟩
  · intro pv emi r h
    cases pv <;> cases emi <;> cases r <;> try rfl
    case num.num.num a b c => exact absurd ⟨rfl, rfl, rfl⟩ h
  · intro pv0 emi0 r0 he hd hz hr
    show (if emi0 ≤ 0 then nan
        else if 1 - r0 * pv0 / emi0 ≤ 0 then nan
        else jsDiv (num (-Real.log (1 - r0 * pv0 / emi0))) (jsLog (1 + r0))) = _
    rw [if_neg (not_le.mpr he), if_neg (not_le.mpr hd)]
    unfold jsLog
    rw [if_neg (by linarith), if_neg (by linarith)]
    exact jsDiv_num_of_ne _ _
      (Real.log_ne_zero_of_pos_of_ne_one (by linarith)
        (by intro h; exact hz (by linarith [h])))

/-- C2 witness: a defined case, `pv = 1`, `emi = 1`, `r = 1/2`. -/
theorem C2_witness :
    safeNper (num 1) (num 1) (num (1/2)) =
      num (-Real.log (1 - (1/2) * 1 / 1) / Real.log (1 + 1/2)) :=
  C2_safeNper_characterization.2.2 1 1 (1/2) (by norm_num) (by norm_num)
    (by norm_num) (by norm_num)

/-- C3 counterexample: `rate = 0` with otherwise valid inputs is rejected by
the validation gate, so the computed `emi` is the `NaN` sentinel, not
`principal / round(tenure*12)`. -/
theorem C3_counterexample :
    (calculateNow (num 100) (num 0) (num 10) (num 0)).emi = nan ∧
      nan ≠ num ((100:ℝ) / 120) := by
  constructor
  · rw [calculateNow_not_gate _ _ _ _ (by
      rintro ⟨-, ⟨R, hR, hRpos⟩, -⟩
      injection hR with hR'
      rw [← hR'] at hRpos
      exact lt_irrefl 0 hRpos)]
    rfl
  · intro h
    exact JsNum.noConfusion h

/-- C3 (amended): a zero annual rate fails the validation gate, so the whole
record is the sentinel and the linear EMI branch is not reached through
`calculateNow`; the EMI step itself (`emiOf`) at `monthlyRate = 0` does take
the linear branch and yields exactly `principal / round(tenure*12)` whenever
the rounded month count is at least 1. -/
theorem C3_zero_rate (L T : ℝ) (offs : JsNum) (hL : 0 < L) (hT : 0 < T) :
    calculateNow (num L) (num 0) (num T) offs = emptyResult ∧
      (1 ≤ nOrigOf T → emiOf L 0 T = num (L / ((nOrigOf T : ℤ) : ℝ))) := by
  constructor
  · apply calculateNow_not_gate
    rintro ⟨-, ⟨R, hR, hRpos⟩, -⟩
    injection hR with hR'
    rw [← hR'] at hRpos
    exact lt_irrefl 0 hRpos
  · intro hn
    have hm0 : monthlyRateOf (0:ℝ) = 0 := by unfold monthlyRateOf; norm_num
    unfold emiOf
    rw [if_pos hm0]
    exact jsDiv_num_of_ne _ _ (by
      have : nOrigOf T ≠ 0 := by omega
      exact_mod_cast this)

/-- C3 witness: `principal = 100`, `tenure = 10`. -/
theorem C3_witness :
    calculateNow (num 100) (num 0) (num 10) (num 1) = emptyResult ∧
      emiOf 100 0 10 = num ((100:ℝ) / ((nOrigOf 10 : ℤ) : ℝ)) := by
  have h := C3_zero_rate 100 10 (num 1) (by norm_num) (by norm_num)
  exact ⟨h.1, h.2 (by rw [nOrigOf_eval 10 120 (by norm_num) (by norm_num)]; norm_num)⟩

/-- C4: for every computation the opportunity cost equals
`offset * ((1 + SAVINGS_ROI/100)^payoffYears - 1)` when the payoff horizon and
the offset are both finite and strictly positive and equals `0` otherwise;
`netSavings` is `interestSaved` minus this opportunity cost; and the
opportunity-cost annual rate is the fixed constant `5.1`. -/
theorem C4_opportunity_cost :
    (∀ c y : ℝ, 0 < y → 0 < c →
        oppCostOf (num c) (num y) = c * ((1 + SAVINGS_ROI / 100) ^ y - 1)) ∧
    (∀ offs yn : JsNum, ¬(yn.finPos ∧ offs.finPos) → oppCostOf offs yn = 0) ∧
    (∀ L R T : ℝ, ∀ offs : JsNum,
        netSavingsOf L R T offs =
          jsSub (interestSavedOf L R T offs)
            (num (oppCostOf offs (yearsNewOf L R T offs)))) ∧
    SAVINGS_ROI = 5.1 := by
  refine ⟨?_, ?_, fun L R T offs => rfl, rfl⟩
  · intro c y hy hc
    show (if 0 < y ∧ 0 < c then c * ((1 + SAVINGS_ROI / 100) ^ y - 1) else 0) = _
    rw [if_pos ⟨hy, hc⟩]
  · intro offs yn h
    cases yn <;> cases offs <;> try rfl
    case num.num y c =>
      show (if 0 < y ∧ 0 < c then c * ((1 + SAVINGS_ROI / 100) ^ y - 1) else 0) = 0
      rw [if_neg]
      rintro ⟨hy, hc⟩
      exact h ⟨⟨y, rfl, hy⟩, ⟨c, rfl, hc⟩⟩

/-- C4 witness: positive offset `2` and payoff horizon `3` years. -/
theorem C4_witness :
    oppCostOf (num 2) (num 3) = 2 * ((1 + SAVINGS_ROI / 100) ^ (3:ℝ) - 1) :=
  C4_opportunity_cost.1 2 3 (by norm_num) (by norm_num)

/-- C5: with other inputs fixed and valid, increasing the offset within
`[0, principal)` never decreases `interestSaved` and never increases
`payoffYears`, whenever the respective fields are defined (finite). -/
theorem C5_offset_monotonicity (L R T o1 o2 : ℝ) (hL : 0 < L) (hR : 0 < R)
    (hT : 0 < T) (h1 : 0 ≤ o1) (h12 : o1 < o2) (h2L : o2 < L) :
    JsNum.defLe (interestSavedOf L R T (num o1)) (interestSavedOf L R T (num o2)) ∧
      JsNum.defLe (yearsNewOf L R T (num o2)) (yearsNewOf L R T (num o1)) := by
  by_cases hn : 1 ≤ nOrigOf T
  case neg =>
    have hn0 : nOrigOf T = 0 := le_antisymm (by omega) (nOrigOf_nonneg hT)
    obtain ⟨-, -, hIS1, -, -⟩ := degenerate_nan hL hR hn0 (num o1)
    obtain ⟨-, -, -, hY2, -⟩ := degenerate_nan hL hR hn0 (num o2)
    constructor
    · intro x y hx hy
      rw [hIS1] at hx
      exact absurd hx (by simp)
    · intro x y hx hy
      rw [hY2] at hx
      exact absurd hx (by simp)
  case pos =>
    have hpa1 : principalAfterOf L (num o1) = L - o1 := by
      rw [principalAfterOf_num, max_eq_right (by linarith)]
    have hpa2 : principalAfterOf L (num o2) = L - o2 := by
      rw [principalAfterOf_num, max_eq_right (by linarith)]
    have hkey := @emi_nper_lower L R T (L - o2) (L - o1) hL hR hn
      (by linarith) (by linarith) (by linarith)
    have hmono := @nperVal_mono L R T (L - o2) (L - o1) hL hR hn
      (by linarith) (by linarith)
    constructor
    · intro x y hx hy
      rw [interestSavedOf_eval hL hR hn h1, hpa1] at hx
      rw [interestSavedOf_eval hL hR hn (by linarith), hpa2] at hy
      injection hx with hx'
      injection hy with hy'
      rw [← hx', ← hy']
      linarith
    · intro x y hx hy
      rw [yearsNewOf_eval hL hR hn (by linarith), hpa2] at hx
      rw [yearsNewOf_eval hL hR hn h1, hpa1] at hy
      injection hx with hx'
      injection hy with hy'
      rw [← hx', ← hy']
      linarith

/-- C5 witness: principal 1, rate 12, tenure 1, offsets 0 and 1/2. -/
theorem C5_witness :
    JsNum.defLe (interestSavedOf 1 12 1 (num 0)) (interestSavedOf 1 12 1 (num (1/2))) ∧
      JsNum.defLe (yearsNewOf 1 12 1 (num (1/2))) (yearsNewOf 1 12 1 (num 0)) :=
  C5_offset_monotonicity 1 12 1 0 (1/2) (by norm_num) (by norm_num) (by norm_num)
    (by norm_num) (by norm_num) (by norm_num)

lemma jsSub_num (a b : ℝ) : jsSub (num a) (num b) = num (a - b) := rfl

lemma jsTrunc_num_nonneg {a : ℝ} (ha : 0 ≤ a) :
    jsTrunc (num a) = num ((⌊a⌋ : ℤ) : ℝ) := by
  show num (if 0 ≤ a then ((⌊a⌋ : ℤ) : ℝ) else ((⌈a⌉ : ℤ) : ℝ)) = _
  rw [if_pos ha]

/-- C6 counterexample: the claim admits `rate = 0`, but the gate rejects it
(whole record sentinel, so `netSavings` is `NaN`, not `0`); and even with a
positive rate, a tenure below half a month rounds to a zero month count,
making the EMI infinite and `netSavings` `NaN` rather than `0`. -/
theorem C6_counterexample :
    (calculateNow (num 1) (num 0) (num 1) (num 0)).netSavings = nan ∧
      (calculateNow (num 1) (num 12) (num (1/100)) (num 0)).netSavings = nan ∧
      nan ≠ num 0 := by
  refine ⟨?_, ?_, fun h => JsNum.noConfusion h⟩
  · rw [calculateNow_not_gate _ _ _ _ (by
      rintro ⟨-, ⟨R, hR, hRpos⟩, -⟩
      injection hR with hR'
      rw [← hR'] at hRpos
      exact lt_irrefl 0 hRpos)]
    rfl
  · rw [calculateNow_gate 1 12 (1/100) (num 0) (by norm_num) (by norm_num)
      (by norm_num)]
    have hn0 : nOrigOf (1/100 : ℝ) = 0 :=
      nOrigOf_eval (1/100) 0 (by norm_num) (by norm_num)
    obtain ⟨-, -, hIS, -, -⟩ :=
      degenerate_nan (by norm_num : (0:ℝ) < 1) (by norm_num : (0:ℝ) < 12) hn0 (num 0)
    show netSavingsOf 1 12 (1/100) (num 0) = nan
    unfold netSavingsOf
    rw [hIS]
    rfl

/-- C6 (amended): for gate-passing inputs (`rate > 0`, not `≥ 0`) whose
rounded month count is at least 1, a zero offset yields `netSavings = 0`
exactly, `emisSavedMonths = 0`, and `payoffYears = round(tenure*12)/12`, which
is within `1/24` of a year of the requested tenure. -/
theorem C6_zero_offset (L R T : ℝ) (hL : 0 < L) (hR : 0 < R) (hT : 0 < T)
    (hn : 1 ≤ nOrigOf T) :
    netSavingsOf L R T (num 0) = num 0 ∧
      emisSavedOf L R T (num 0) = num 0 ∧
      yearsNewOf L R T (num 0) = num (((nOrigOf T : ℤ) : ℝ) / 12) ∧
      |((nOrigOf T : ℤ) : ℝ) / 12 - T| ≤ 1 / 24 := by
  have hpa : principalAfterOf L (num 0) = L := by
    rw [principalAfterOf_num, sub_zero, max_eq_right hL.le]
  have hnn : nNewOf L R T (num 0) = num ((nOrigOf T : ℤ) : ℝ) := by
    rw [nNewOf_eq hL hR hn le_rfl, hpa, nperVal_at_L hL hR hn]
  have hnor := nOrigRealOf_eq hL hR hn
  have hyears : yearsNewOf L R T (num 0) = num (((nOrigOf T : ℤ) : ℝ) / 12) := by
    unfold yearsNewOf
    rw [hnn, jsDiv_num_of_ne _ _ (by norm_num)]
  have hIS : interestSavedOf L R T (num 0) = num 0 := by
    unfold interestSavedOf origInterestOf newInterestOf
    rw [emiOf_eq hR hn, hnor, hnn, hpa]
    show num (emiVal L R T * ((nOrigOf T : ℤ) : ℝ) - L -
      (emiVal L R T * ((nOrigOf T : ℤ) : ℝ) - L)) = num 0
    rw [sub_self]
  have hosc : oppCostOf (num 0) (yearsNewOf L R T (num 0)) = 0 := by
    rw [hyears]
    show (if 0 < ((nOrigOf T : ℤ) : ℝ) / 12 ∧ 0 < (0:ℝ) then _ else 0) = 0
    rw [if_neg]
    rintro ⟨-, h0⟩
    exact lt_irrefl 0 h0
  refine ⟨?_, ?_, hyears, ?_⟩
  · unfold netSavingsOf
    rw [hIS, hosc, jsSub_num, sub_zero]
  · unfold emisSavedOf
    rw [hnor, hnn, jsSub_num, sub_self, jsTrunc_num_nonneg le_rfl]
    norm_num
  · have h := abs_sub_round (T * 12)
    have h2 : |((round (T * 12) : ℤ) : ℝ) - T * 12| ≤ 1/2 := by
      rw [abs_sub_comm]; exact h
    have e1 : ((nOrigOf T : ℤ) : ℝ) / 12 - T =
        (((round (T * 12) : ℤ) : ℝ) - T * 12) / 12 := by
      unfold nOrigOf; ring
    rw [e1, abs_div, abs_of_pos (by norm_num : (0:ℝ) < 12)]
    linarith

/-- C6 witness: principal 1, rate 12, tenure 1, offset 0. -/
theorem C6_witness :
    netSavingsOf 1 12 1 (num 0) = num 0 ∧
      emisSavedOf 1 12 1 (num 0) = num 0 ∧
      yearsNewOf 1 12 1 (num 0) = num (((nOrigOf 1 : ℤ) : ℝ) / 12) ∧
      |((nOrigOf 1 : ℤ) : ℝ) / 12 - 1| ≤ 1 / 24 :=
  C6_zero_offset 1 12 1 (by norm_num) (by norm_num) (by norm_num)
    (by rw [nOrigOf_eval 1 12 (by norm_num) (by norm_num)]; norm_num)

/-- C7 counterexample: with a valid but tiny tenure (`1/50` year, rounding to
a zero month count), `offset ≥ principal` does zero out the principal, yet the
payoff horizon is the `NaN` sentinel (the EMI is infinite), not a value at or
near 0. -/
theorem C7_counterexample :
    principalAfterOf 1 (num 2) = 0 ∧
      yearsNewOf 1 12 (1/50) (num 2) = nan ∧ nan ≠ num 0 := by
  refine ⟨?_, ?_, fun h => JsNum.noConfusion h⟩
  · rw [principalAfterOf_num, max_eq_left (by norm_num)]
  · have hn0 : nOrigOf (1/50 : ℝ) = 0 :=
      nOrigOf_eval (1/50) 0 (by norm_num) (by norm_num)
    exact (degenerate_nan (by norm_num : (0:ℝ) < 1) (by norm_num : (0:ℝ) < 12)
      hn0 (num 2)).2.2.2.1

/-- C7 (amended): for gate-passing inputs whose rounded month count is at
least 1 and a finite offset at or above the principal: the effective principal
is exactly 0, the periods-solve on it succeeds with value 0 (so
`payoffYears = 0`), and `interestSaved` equals the full original interest
`emi * nOrigReal - principal`. -/
theorem C7_full_offset (L R T c : ℝ) (hL : 0 < L) (hR : 0 < R) (hT : 0 < T)
    (hn : 1 ≤ nOrigOf T) (hc : L ≤ c) :
    principalAfterOf L (num c) = 0 ∧
      nNewOf L R T (num c) = num 0 ∧
      yearsNewOf L R T (num c) = num 0 ∧
      interestSavedOf L R T (num c) = origInterestOf L R T := by
  have hpa : principalAfterOf L (num c) = 0 := by
    rw [principalAfterOf_num, max_eq_left (by linarith)]
  have hnn : nNewOf L R T (num c) = num 0 := by
    rw [nNewOf_eq hL hR hn (by linarith), hpa]
    unfold nperVal nperDenom
    rw [mul_zero, zero_div, sub_zero, Real.log_one, neg_zero, zero_div]
  have hyears : yearsNewOf L R T (num c) = num 0 := by
    unfold yearsNewOf
    rw [hnn, jsDiv_num_of_ne _ _ (by norm_num : (12:ℝ) ≠ 0), zero_div]
  have hIS : interestSavedOf L R T (num c) = origInterestOf L R T := by
    unfold interestSavedOf newInterestOf origInterestOf
    rw [emiOf_eq hR hn, nOrigRealOf_eq hL hR hn, hnn, hpa]
    show num (emiVal L R T * ((nOrigOf T : ℤ) : ℝ) - L - (emiVal L R T * 0 - 0)) =
      num (emiVal L R T * ((nOrigOf T : ℤ) : ℝ) - L)
    congr 1
    ring
  exact ⟨hpa, hnn, hyears, hIS⟩

/-- C7 witness: principal 2, rate 12, tenure 1, offset 3. -/
theorem C7_witness :
    principalAfterOf 2 (num 3) = 0 ∧
      nNewOf 2 12 1 (num 3) = num 0 ∧
      yearsNewOf 2 12 1 (num 3) = num 0 ∧
      interestSavedOf 2 12 1 (num 3) = origInterestOf 2 12 1 :=
  C7_full_offset 2 12 1 3 (by norm_num) (by norm_num) (by norm_num)
    (by rw [nOrigOf_eval 1 12 (by norm_num) (by norm_num)]; norm_num)
    (by norm_num)

/-- C8: `effectiveRate` equals `rate - (netSavings / (loan * yearsNew)) * 100`
(in JavaScript arithmetic, all on the same computed record) whenever
`yearsNew` is finite and strictly positive, and is the `NaN` sentinel
otherwise — including when the validation gate fails. -/
theorem C8_effective_rate (loan rate tenure offs : JsNum) :
    ((calculateNow loan rate tenure offs).yearsNew.finPos →
      (calculateNow loan rate tenure offs).effectiveRate =
        jsSub rate
          (jsMul
            (jsDiv (calculateNow loan rate tenure offs).netSavings
              (jsMul loan (calculateNow loan rate tenure offs).yearsNew))
            (num 100))) ∧
    (¬ (calculateNow loan rate tenure offs).yearsNew.finPos →
      (calculateNow loan rate tenure offs).effectiveRate = nan) := by
  by_cases hg : validGate loan rate tenure
  case neg =>
    rw [calculateNow_not_gate loan rate tenure offs hg]
    constructor
    · rintro ⟨y, hy, -⟩
      exact absurd hy (by simp [emptyResult])
    · intro h0
      rfl
  case pos =>
    obtain ⟨⟨L, rfl, hL⟩, ⟨R, rfl, hR⟩, ⟨T, rfl, hT⟩⟩ := hg
    rw [calculateNow_gate L R T offs hL hR hT]
    constructor
    · rintro ⟨y, hy, hypos⟩
      have hy' : yearsNewOf L R T offs = num y := hy
      show effectiveRateOf L R T offs = _
      unfold effectiveRateOf
      rw [hy']
      show (if 0 < y then
          jsSub (num R)
            (jsMul (jsDiv (netSavingsOf L R T offs) (jsMul (num L) (num y)))
              (num 100)) else nan) = _
      rw [if_pos hypos, show (calcCore L R T offs).yearsNew = num y from hy']
      rfl
    · intro hnot
      show effectiveRateOf L R T offs = nan
      unfold effectiveRateOf
      cases hY : yearsNewOf L R T offs with
      | num y =>
          show (if 0 < y then
              jsSub (num R)
                (jsMul (jsDiv (netSavingsOf L R T offs) (jsMul (num L) (num y)))
                  (num 100)) else nan) = nan
          rw [if_neg]
          intro hy
          exact hnot ⟨y, hY, hy⟩
      | pinf => rfl
      | ninf => rfl
      | nan => rfl

/-- C8 witness: the all-`NaN` input record has an undefined effective rate. -/
theorem C8_witness : (calculateNow nan nan nan nan).effectiveRate = nan :=
  (C8_effective_rate nan nan nan nan).2 (by
    rintro ⟨y, hy, -⟩
    rw [calculateNow_not_gate nan nan nan nan (by
      rintro ⟨⟨x, hx, -⟩, -, -⟩
      exact JsNum.noConfusion hx)] at hy
    exact JsNum.noConfusion hy)

/-- C9 counterexample: the inputs `principal = 1`, `rate = 12`,
`tenure = 1/30` pass the validation gate, yet `nOrigReal` is the `NaN`
sentinel: the rounded month count is 0, so the EMI divides by zero and is
infinite, and `safeNper` rejects a non-finite EMI. -/
theorem C9_counterexample :
    ((0:ℝ) < 1 ∧ (0:ℝ) < 12 ∧ (0:ℝ) < 1/30) ∧
      nOrigRealOf 1 12 (1/30) = nan := by
  refine ⟨by norm_num, ?_⟩
  have hn0 : nOrigOf (1/30 : ℝ) = 0 :=
    nOrigOf_eval (1/30) 0 (by norm_num) (by norm_num)
  exact (degenerate_nan (by norm_num : (0:ℝ) < 1) (by norm_num : (0:ℝ) < 12)
    hn0 (num 0)).1

/-- C9 (amended): for gate-passing inputs whose rounded month count `n` is at
least 1, the periods-solve on the original loan always succeeds:
`nOrigReal = n` exactly (never the sentinel), and its `denom` is strictly
positive, so the unfulfillable-amortization branch is unreachable for the
original loan. -/
theorem C9_original_nper_defined (L R T : ℝ) (hL : 0 < L) (hR : 0 < R)
    (hT : 0 < T) (hn : 1 ≤ nOrigOf T) :
    nOrigRealOf L R T = num ((nOrigOf T : ℤ) : ℝ) ∧
      0 < nperDenom L R T L :=
  ⟨nOrigRealOf_eq hL hR hn, nperDenom_pos hL hR hn le_rfl⟩

/-- C9 witness: principal 1, rate 12, tenure 1. -/
theorem C9_witness :
    nOrigRealOf 1 12 1 = num ((nOrigOf 1 : ℤ) : ℝ) ∧ 0 < nperDenom 1 12 1 1 :=
  C9_original_nper_defined 1 12 1 (by norm_num) (by norm_num) (by norm_num)
    (by rw [nOrigOf_eval 1 12 (by norm_num) (by norm_num)]; norm_num)

/-- C10: for gate-passing inputs and a finite offset ≥ 0, whenever the
respective fields are defined: `nNew ≤ nOrigReal`, `emisSavedMonths ≥ 0`, and
`payoffYears ≤ nOrigReal / 12`. -/
theorem C10_revised_period_bounds (L R T c : ℝ) (hL : 0 < L) (hR : 0 < R)
    (hT : 0 < T) (hc : 0 ≤ c) :
    JsNum.defLe (nNewOf L R T (num c)) (nOrigRealOf L R T) ∧
      JsNum.defNonneg (emisSavedOf L R T (num c)) ∧
      JsNum.defLe (yearsNewOf L R T (num c)) (jsDiv (nOrigRealOf L R T) (num 12)) := by
  by_cases hn : 1 ≤ nOrigOf T
  case neg =>
    have hn0 : nOrigOf T = 0 := le_antisymm (by omega) (nOrigOf_nonneg hT)
    obtain ⟨h1, h2, -, h4, h5⟩ := degenerate_nan hL hR hn0 (num c)
    refine ⟨?_, ?_, ?_⟩
    · intro x y hx hy
      rw [h2] at hx
      exact absurd hx (by simp)
    · intro x hx
      rw [h5] at hx
      exact absurd hx (by simp)
    · intro x y hx hy
      rw [h4] at hx
      exact absurd hx (by simp)
  case pos =>
    have hpaL : principalAfterOf L (num c) ≤ L := by
      rw [principalAfterOf_num]
      exact max_le hL.le (by linarith)
    have hnn := nNewOf_eq hL hR hn hc
    have hnor := nOrigRealOf_eq hL hR hn
    have hle : nperVal L R T (principalAfterOf L (num c)) ≤ ((nOrigOf T : ℤ) : ℝ) := by
      rw [← nperVal_at_L hL hR hn]
      exact nperVal_mono hL hR hn hpaL le_rfl
    refine ⟨?_, ?_, ?_⟩
    · intro x y hx hy
      rw [hnn] at hx
      rw [hnor] at hy
      injection hx with hx'
      injection hy with hy'
      rw [← hx', ← hy']
      exact hle
    · intro x hx
      unfold emisSavedOf at hx
      have hd : 0 ≤ ((nOrigOf T : ℤ) : ℝ) -
          nperVal L R T (principalAfterOf L (num c)) := by linarith
      rw [hnor, hnn, jsSub_num, jsTrunc_num_nonneg hd] at hx
      injection hx with hx'
      rw [← hx']
      exact_mod_cast Int.floor_nonneg.mpr hd
    · intro x y hx hy
      rw [yearsNewOf_eval hL hR hn hc] at hx
      rw [hnor, jsDiv_num_of_ne _ _ (by norm_num : (12:ℝ) ≠ 0)] at hy
      injection hx with hx'
      injection hy with hy'
      rw [← hx', ← hy']
      exact (div_le_div_iff_of_pos_right (by norm_num : (0:ℝ) < 12)).mpr hle

/-- C10 witness: principal 1, rate 12, tenure 2, offset 0. -/
theorem C10_witness :
    JsNum.defLe (nNewOf 1 12 2 (num 0)) (nOrigRealOf 1 12 2) ∧
      JsNum.defNonneg (emisSavedOf 1 12 2 (num 0)) ∧
      JsNum.defLe (yearsNewOf 1 12 2 (num 0)) (jsDiv (nOrigRealOf 1 12 2) (num 12)) :=
  C10_revised_period_bounds 1 12 2 0 (by norm_num) (by norm_num) (by norm_num)
    (by norm_num)

end EquirusHomeSaver
